import Mathlib

/- Verification of the verba revision app: a shallow embedding of
   src/verba/apps/revision/models.py. Python strings are embedded as lists of
   characters (PyStr); slicing, prefix tests, splitting and lowercasing become
   the corresponding list operations, and the nondeterministic collaborators
   (the hosting API results, the random suffix, the clock) are passed in
   explicitly. -/

deriving instance DecidableEq for Except

namespace Verba

abbrev PyStr := List Char

/-- Converts a Lean string literal to the embedded string type. -/
def pyStr (s : String) : PyStr := s.toList

/-- Embeds Python str.lower (ASCII). -/
def pyLower (s : PyStr) : PyStr := s.map Char.toLower

/-- Embeds Python str.split for a one-character separator. -/
def pySplit (sep : Char) (s : PyStr) : List PyStr :=
  s.foldr
    (fun c acc =>
      match acc with
      | [] => [[c]]
      | cur :: rest => if c = sep then [] :: cur :: rest else (c :: cur) :: rest)
    [[]]

/-- Embeds the Python regex whitespace class (ASCII). -/
def isPySpace (c : Char) : Bool :=
  c = ' ' || c = '\t' || c = '\n' || c = '\r' || c = '\x0b' || c = '\x0c'

/-- Embeds the Python regex word class (ASCII). -/
def isWordChar (c : Char) : Bool := c.isAlphanum || c = '_'

/-- Embeds Python str.strip with no arguments. -/
def pyStrip (s : PyStr) : PyStr :=
  ((s.dropWhile isPySpace).reverse.dropWhile isPySpace).reverse

/-- Second substitution step of Django slugify: collapse each run of dashes and
    whitespace into a single dash. The Boolean records whether the previous
    character belonged to such a run. -/
def collapseDashSpace : Bool → PyStr → PyStr
  | _, [] => []
  | inRun, c :: rest =>
    if c = '-' || isPySpace c then
      if inRun then collapseDashSpace true rest
      else '-' :: collapseDashSpace true rest
    else c :: collapseDashSpace false rest

/-- Django slugify (ASCII path), as called by RevisionManager.create: drop
    characters outside the word, whitespace and dash classes, strip surrounding
    whitespace, lowercase, then collapse runs of dashes and whitespace into
    single dashes. -/
def slugify (value : PyStr) : PyStr :=
  collapseDashSpace false
    (pyLower (pyStrip (value.filter fun c => isWordChar c || isPySpace c || c = '-')))

/-- Constant CONTENT_PATH from models.py. -/
def CONTENT_PATH : PyStr := pyStr "pages/"

/-- Constant REVISIONS_LOG_FOLDER from models.py. -/
def REVISIONS_LOG_FOLDER : PyStr := pyStr "content-revision-logs/"

/-- Constant BRANCH_NAMESPACE from models.py. -/
def BRANCH_NAMESPACE : PyStr := pyStr "content-"

/-- Constant BASE_BRANCH from models.py. -/
def BASE_BRANCH : PyStr := pyStr "develop"

/-- Constant LABEL_IN_PROGRESS from models.py. -/
def LABEL_IN_PROGRESS : PyStr := pyStr "do not merge"

/-- Constant LABEL_IN_REVIEW from models.py. -/
def LABEL_IN_REVIEW : PyStr := pyStr "for review"

/-- The status vocabulary present in the code: the two status labels that
    models.py defines. -/
def ALLOWED_STATUSES : List PyStr := [LABEL_IN_PROGRESS, LABEL_IN_REVIEW]

/-- Embeds abs_path. -/
def abs_path (path : PyStr) : PyStr :=
  if (pyStr "/").isPrefixOf path then path else pyStr "/" ++ path

/-- Embeds get_verba_branch_name. -/
def get_verba_branch_name (revision_id : PyStr) : PyStr :=
  BRANCH_NAMESPACE ++ revision_id

/-- Embeds is_verba_branch. -/
def is_verba_branch (name : PyStr) : Bool :=
  BRANCH_NAMESPACE.isPrefixOf name

/-- Embeds get_revision_id: none when the branch is not a verba branch,
    otherwise the branch name with the namespace stripped. -/
def get_revision_id (verba_branch_name : PyStr) : Option PyStr :=
  if is_verba_branch verba_branch_name then
    some (verba_branch_name.drop BRANCH_NAMESPACE.length)
  else
    none

/-- A repository file blob as returned by the hosting API: its name and its
    path within the repository. -/
structure GitFile where
  name : PyStr
  path : PyStr
deriving DecidableEq

/-- Embeds RevisionFile; the repo handle is dropped since it only carries the
    API connection. -/
structure RevisionFile where
  revision_id : PyStr
  gitfile : GitFile
deriving DecidableEq

/-- The assertion in the RevisionFile constructor: the backing blob path starts
    with the content root. -/
def RevisionFile.wf (f : RevisionFile) : Prop :=
  CONTENT_PATH.isPrefixOf f.gitfile.path = true

/-- Embeds the RevisionFile.path property: the backing blob path with the
    content-root prefix stripped. -/
def RevisionFile.path (f : RevisionFile) : PyStr :=
  f.gitfile.path.drop CONTENT_PATH.length

/-- A pull request as returned by the hosting API: its head branch ref, title,
    body, and the labels of its backing issue. -/
structure Pull where
  head_ref : PyStr
  title : PyStr
  body : PyStr
  labels : List PyStr
deriving DecidableEq

/-- Embeds Revision: a revision id together with the backing pull request. -/
structure Revision where
  id : PyStr
  pull : Pull
deriving DecidableEq

/-- Embeds Revision.is_content_file: the extension after the last dot,
    lowercased, must be md. -/
def is_content_file (file_name : PyStr) : Bool :=
  pyLower ((pySplit '.' file_name).getLastD []) == pyStr "md"

/-- Embeds Revision.get_files, with the directory listing returned by the
    hosting API passed explicitly. -/
def get_files (revision_id : PyStr) (gitfiles : List GitFile) : List RevisionFile :=
  (gitfiles.filter fun gitfile => is_content_file gitfile.name).map
    fun gitfile => { revision_id := revision_id, gitfile := gitfile }

/-- Embeds Revision.get_file_by_path; raising RevisionFileNotFoundException
    becomes returning Except.error with the formatted message. -/
def get_file_by_path (revision_id : PyStr) (gitfiles : List GitFile)
    (path : PyStr) : Except PyStr RevisionFile :=
  match (get_files revision_id gitfiles).find?
      (fun rev_file => pyLower rev_file.path == pyLower path) with
  | some rev_file => Except.ok rev_file
  | none => Except.error (pyStr "File \x27" ++ path ++ pyStr "\x27 not found")

/-- Embeds Revision.mark_as_in_progress as a pure function on the label list of
    the backing issue: remove the in-review label when present, then append the
    in-progress label. -/
def mark_as_in_progress (labels : List PyStr) : List PyStr :=
  (if LABEL_IN_REVIEW ∈ labels then labels.erase LABEL_IN_REVIEW else labels)
    ++ [LABEL_IN_PROGRESS]

/-- Embeds Revision.mark_as_in_review as a pure function on the label list of
    the backing issue: remove the in-progress label when present, then append
    the in-review label. -/
def mark_as_in_review (labels : List PyStr) : List PyStr :=
  (if LABEL_IN_PROGRESS ∈ labels then labels.erase LABEL_IN_PROGRESS else labels)
    ++ [LABEL_IN_REVIEW]

/-- Modelled from the spec: Revision.statuses is missing from src (only the
    tests of the repository reference it); per the spec it returns the subset of
    the label set of the entity intersected with the allowed status vocabulary,
    which is supplied by external configuration. -/
def statuses (labels vocab : List PyStr) : List PyStr :=
  labels.filter fun l => decide (l ∈ vocab)

/-- Modelled from the spec: Revision.move_to_draft is missing from src (only the
    tests of the repository reference it); per the spec it removes any existing
    status label from the label set and adds the single draft status. -/
def move_to_draft (labels vocab : List PyStr) (draft : PyStr) : List PyStr :=
  (labels.filter fun l => decide (l ∉ vocab)) ++ [draft]

/-- Embeds RevisionManager.get_all, with the pull-request listing returned by
    the hosting API passed explicitly: a pull whose head branch yields no
    revision id, or an empty (falsy) one, is skipped. -/
def get_all (pulls : List Pull) : List Revision :=
  pulls.filterMap fun pull =>
    match get_revision_id pull.head_ref with
    | none => none
    | some revision_id =>
      if revision_id = [] then none
      else some { id := revision_id, pull := pull }

/-- Embeds RevisionManager.get_by_id; raising RevisionNotFoundException becomes
    returning Except.error with the formatted message. -/
def get_by_id (pulls : List Pull) (revision_id : PyStr) : Except PyStr Revision :=
  match (get_all pulls).find? (fun revision => revision.id == revision_id) with
  | some revision => Except.ok revision
  | none =>
    Except.error (pyStr "Revision \x27" ++ revision_id ++ pyStr "\x27 not found")

/-- The write calls RevisionManager.create issues against the hosting API. -/
inductive ApiCall where
  | branchCreate (ref : PyStr) (from_branch : PyStr)
  | fileCreate (path : PyStr) (branch : PyStr)
  | pullCreate (head : PyStr) (base : PyStr)
  | setLabels (labels : List PyStr)
deriving DecidableEq

/-- Embeds the revision id generated in RevisionManager.create, namely
    slugify of the first ten title characters, a dash, and a random string of
    length ten; the random string is passed explicitly. -/
def new_revision_id (title rand : PyStr) : PyStr :=
  slugify (title.take 10) ++ pyStr "-" ++ rand

/-- Embeds RevisionManager.create, with the nondeterministic inputs (the random
    suffix and the formatted current time) passed explicitly. Returns the API
    calls issued, in order, and the resulting revision; the issue of a fresh
    pull request carries no labels, and mark_as_in_progress is applied to it as
    the final step, exactly as in the code. -/
def create (title rand now : PyStr) : List ApiCall × Revision :=
  let revision_id := new_revision_id title rand
  let branch_name := get_verba_branch_name revision_id
  let branch_ref := pyStr "refs/heads/" ++ branch_name
  let revision_log_file_path :=
    abs_path (REVISIONS_LOG_FOLDER ++ now ++ pyStr "_" ++ branch_name)
  let pull : Pull :=
    { head_ref := branch_name
      title := title
      body := pyStr "Content revision " ++ title
      labels := [] }
  let final_labels := mark_as_in_progress pull.labels
  ([ApiCall.branchCreate branch_ref BASE_BRANCH,
    ApiCall.fileCreate revision_log_file_path branch_name,
    ApiCall.pullCreate branch_name BASE_BRANCH,
    ApiCall.setLabels final_labels],
   { id := revision_id, pull := { pull with labels := final_labels } })

/-- Sample pull request with a managed head branch, used by witnesses. -/
def samplePull : Pull :=
  { head_ref := pyStr "content-x", title := pyStr "t", body := pyStr "b", labels := [] }

/-- Sample content file used by witnesses. -/
def sampleGitFile : GitFile :=
  { name := pyStr "about.md", path := pyStr "pages/about.md" }

/- ------------------------------------------------------------------ -/
/- Helper lemmas.                                                     -/
/- ------------------------------------------------------------------ -/

/-- Helper: the Boolean prefix test unfolded to an append equation. -/
theorem isPrefixOf_append_eq {l₁ l₂ : List Char} :
    l₁.isPrefixOf l₂ = true ↔ l₁ ++ l₂.drop l₁.length = l₂ := by
  rw [ List.isPrefixOf_iff_prefix, List.prefix_iff_eq_append]

/-- Helper: characterization of get_revision_id yielding a given id. -/
theorem get_revision_id_eq_some {name rid : PyStr} :
    get_revision_id name = some rid ↔ name = BRANCH_NAMESPACE ++ rid := by
  constructor
  · intro h
    by_cases hv : is_verba_branch name = true
    · rw [get_revision_id, if_pos hv, Option.some_inj] at h
      have happ : BRANCH_NAMESPACE ++ name.drop BRANCH_NAMESPACE.length = name :=
        isPrefixOf_append_eq.mp hv
      rw [← happ, h]
    · rw [get_revision_id, if_neg hv] at h
      exact absurd h (by simp)
  · rintro rfl
    have hv : is_verba_branch (BRANCH_NAMESPACE ++ rid) = true := by
      rw [is_verba_branch]
      exact isPrefixOf_append_eq.mpr (by rw [List.drop_left])
    rw [get_revision_id, if_pos hv, List.drop_left]

/-- Helper: membership in the result of get_all. -/
theorem mem_get_all {pulls : List Pull} {r : Revision} :
    r ∈ get_all pulls ↔
      ∃ pull ∈ pulls, get_revision_id pull.head_ref = some r.id ∧ r.id ≠ [] ∧
        r.pull = pull := by
  rw [get_all, List.mem_filterMap]
  constructor
  · rintro ⟨p, hp, hf⟩
    split at hf
    · simp at hf
    next rid hrid =>
      by_cases hz : rid = []
      · rw [if_pos hz] at hf
        simp at hf
      · rw [if_neg hz] at hf
        rw [Option.some_inj] at hf
        subst hf
        exact ⟨p, hp, hrid, hz, rfl⟩
  · rintro ⟨p, hp, hrid, hne, hpl⟩
    refine ⟨p, hp, ?_⟩
    rw [hrid]
    show (if r.id = [] then none else some { id := r.id, pull := p }) = some r
    rw [if_neg hne, Option.some_inj]
    cases r with
    | mk rid rpull =>
      cases hpl
      rfl

/-- Helper: in a duplicate-free list, filtering by equality with a member keeps
    exactly that one element. -/
theorem filter_eq_of_nodup {l : List PyStr} {a : PyStr} (hn : l.Nodup) (ha : a ∈ l) :
    (l.filter fun s => decide (s = a)) = [a] := by
  induction l with
  | nil => cases ha
  | cons x xs ih =>
    rcases List.mem_cons.mp ha with rfl | hmem
    · rw [List.filter_cons_of_pos (by simp)]
      have hxs := (List.nodup_cons.mp hn).1
      have hnil : (xs.filter fun s => decide (s = a)) = [] := by
        rw [List.filter_eq_nil_iff]
        intro s hs
        simp only [decide_eq_true_eq]
        rintro rfl
        exact hxs hs
      rw [hnil]
    · have hne : x ≠ a := by
        rintro rfl
        exact (List.nodup_cons.mp hn).1 hmem
      rw [List.filter_cons_of_neg (by simp [hne])]
      exact ih (List.nodup_cons.mp hn).2 hmem

/- ------------------------------------------------------------------ -/
/- Claim theorems.                                                    -/
/- ------------------------------------------------------------------ -/

/-- C6: the revision mapper functions are total and never fail: is_verba_branch
    is true exactly when the name carries the namespace prefix, get_revision_id
    returns none exactly when the name is not a managed branch, and on a managed
    branch it returns the name with the namespace prefix stripped. -/
theorem mapper_total_and_correct (name : PyStr) :
    (is_verba_branch name = true ↔ ∃ rest, name = BRANCH_NAMESPACE ++ rest) ∧
    (get_revision_id name = none ↔ is_verba_branch name = false) ∧
    (∀ rest, name = BRANCH_NAMESPACE ++ rest → get_revision_id name = some rest) := by
  refine ⟨?_, ?_, ?_⟩
  · constructor
    · intro hv
      exact ⟨name.drop BRANCH_NAMESPACE.length, (isPrefixOf_append_eq.mp hv).symm⟩
    · rintro ⟨rest, rfl⟩
      show BRANCH_NAMESPACE.isPrefixOf _ = true
      exact isPrefixOf_append_eq.mpr (by rw [List.drop_left])
  · by_cases hv : is_verba_branch name = true
    · rw [get_revision_id, if_pos hv]
      simp [hv]
    · rw [get_revision_id, if_neg hv]
      simp only [Bool.not_eq_true] at hv
      simp [hv]
  · intro rest hrest
    exact get_revision_id_eq_some.mpr hrest

/-- Witness for C6 at a concrete managed branch name. -/
theorem mapper_total_and_correct_witness :
    get_revision_id (pyStr "content-about-us") = some (pyStr "about-us") :=
  (mapper_total_and_correct (pyStr "content-about-us")).2.2 (pyStr "about-us") (by decide)

/-- C7: statuses returns exactly the label set of the revision intersected with
    the allowed status vocabulary: a label is in the result exactly when it is
    on the backing issue of the pull request and in the vocabulary. -/
theorem statuses_eq_labels_inter_vocab (labels vocab : List PyStr) (s : PyStr) :
    s ∈ statuses labels vocab ↔ s ∈ labels ∧ s ∈ vocab := by
  simp [statuses, List.mem_filter]

/-- C8: for a RevisionFile whose backing blob path carries the content-root
    prefix (the constructor assertion), the exposed path is the backing path
    with that prefix stripped, hence prepending the content root recovers the
    backing path: the exposed path is relative to the content root. -/
theorem revision_file_path_relative (f : RevisionFile) (h : f.wf) :
    f.path = f.gitfile.path.drop CONTENT_PATH.length ∧
    CONTENT_PATH ++ f.path = f.gitfile.path := by
  refine ⟨rfl, ?_⟩
  exact isPrefixOf_append_eq.mp h

/-- Witness for C8 at a concrete content file. -/
theorem revision_file_path_relative_witness :
    CONTENT_PATH ++ (RevisionFile.mk (pyStr "rev1") sampleGitFile).path
      = sampleGitFile.path :=
  (revision_file_path_relative (RevisionFile.mk (pyStr "rev1") sampleGitFile)
    (by show CONTENT_PATH.isPrefixOf sampleGitFile.path = true
        decide)).2

/-- C9: a branch named exactly the bare namespace prefix is a verba branch whose
    extracted id is the empty string, yet get_all skips a pull with that head
    branch because the empty id is falsy; in general every revision get_all
    returns has a non-empty id. -/
theorem bare_namespace_branch_excluded :
    is_verba_branch BRANCH_NAMESPACE = true ∧
    get_revision_id BRANCH_NAMESPACE = some [] ∧
    (∀ t b ls, get_all [Pull.mk BRANCH_NAMESPACE t b ls] = []) ∧
    (∀ pulls : List Pull, ∀ r ∈ get_all pulls, r.id ≠ []) := by
  refine ⟨by decide, by decide, ?_, ?_⟩
  · intro t b ls
    have h1 : get_revision_id BRANCH_NAMESPACE = some [] := by decide
    simp [get_all, h1]
  · intro pulls r hr
    obtain ⟨p, hp, hrid, hne, hpl⟩ := mem_get_all.mp hr
    exact hne

/-- Witness for C9: the revision returned for a concrete managed branch has a
    non-empty id. -/
theorem bare_namespace_branch_excluded_witness :
    (Revision.mk (pyStr "x") samplePull).id ≠ [] :=
  bare_namespace_branch_excluded.2.2.2 [samplePull]
    (Revision.mk (pyStr "x") samplePull) (by decide)

/-- C2: after each status transition the final label set contains exactly one
    label from the allowed status vocabulary, regardless of how many status
    labels were present before: mark_as_in_progress leaves exactly the
    in-progress label, mark_as_in_review leaves exactly the in-review label,
    and the spec-modelled move_to_draft leaves exactly the draft label of its
    vocabulary. -/
theorem status_transition_single_status (labels : List PyStr) (h : labels.Nodup)
    (vocab : List PyStr) (draft : PyStr) (hd : draft ∈ vocab) (hv : vocab.Nodup) :
    (ALLOWED_STATUSES.filter fun s => decide (s ∈ mark_as_in_progress labels))
        = [LABEL_IN_PROGRESS] ∧
    (ALLOWED_STATUSES.filter fun s => decide (s ∈ mark_as_in_review labels))
        = [LABEL_IN_REVIEW] ∧
    (vocab.filter fun s => decide (s ∈ move_to_draft labels vocab draft)) = [draft] := by
  have hip : LABEL_IN_PROGRESS ∈ mark_as_in_progress labels := by
    rw [mark_as_in_progress]
    exact List.mem_append_right _ (List.mem_singleton.mpr rfl)
  have hir : LABEL_IN_REVIEW ∉ mark_as_in_progress labels := by
    rw [mark_as_in_progress]
    intro hx
    rcases List.mem_append.mp hx with hx | hx
    · by_cases hmem : LABEL_IN_REVIEW ∈ labels
      · rw [if_pos hmem] at hx
        exact h.not_mem_erase hx
      · rw [if_neg hmem] at hx
        exact hmem hx
    · exact (by decide : LABEL_IN_REVIEW ≠ LABEL_IN_PROGRESS) (List.mem_singleton.mp hx)
  have hir2 : LABEL_IN_REVIEW ∈ mark_as_in_review labels := by
    rw [mark_as_in_review]
    exact List.mem_append_right _ (List.mem_singleton.mpr rfl)
  have hip2 : LABEL_IN_PROGRESS ∉ mark_as_in_review labels := by
    rw [mark_as_in_review]
    intro hx
    rcases List.mem_append.mp hx with hx | hx
    · by_cases hmem : LABEL_IN_PROGRESS ∈ labels
      · rw [if_pos hmem] at hx
        exact h.not_mem_erase hx
      · rw [if_neg hmem] at hx
        exact hmem hx
    · exact (by decide : LABEL_IN_PROGRESS ≠ LABEL_IN_REVIEW) (List.mem_singleton.mp hx)
  refine ⟨?_, ?_, ?_⟩
  · simp only [ALLOWED_STATUSES]
    rw [List.filter_cons_of_pos (by simpa using hip),
      List.filter_cons_of_neg (by simpa using hir), List.filter_nil]
  · simp only [ALLOWED_STATUSES]
    rw [List.filter_cons_of_neg (by simpa using hip2),
      List.filter_cons_of_pos (by simpa using hir2), List.filter_nil]
  · have hcong : ∀ s ∈ vocab,
        (decide (s ∈ move_to_draft labels vocab draft)) = decide (s = draft) := by
      intro s hs
      simp only [move_to_draft, List.mem_append, List.mem_filter,
        decide_eq_true_eq, List.mem_singleton, decide_eq_decide]
      constructor
      · rintro (⟨-, hnot⟩ | hsd)
        · exact absurd hs (by simpa using hnot)
        · exact hsd
      · rintro rfl
        exact Or.inr rfl
    rw [List.filter_congr hcong]
    exact filter_eq_of_nodup hv hd

/-- Witness for C2 at a concrete label set carrying both status labels plus an
    unrelated one, with a draft-carrying vocabulary for move_to_draft. -/
theorem status_transition_single_status_witness :
    (ALLOWED_STATUSES.filter fun s =>
        decide (s ∈ mark_as_in_progress [LABEL_IN_REVIEW, LABEL_IN_PROGRESS, pyStr "extra"]))
      = [LABEL_IN_PROGRESS] ∧
    (ALLOWED_STATUSES.filter fun s =>
        decide (s ∈ mark_as_in_review [LABEL_IN_REVIEW, LABEL_IN_PROGRESS, pyStr "extra"]))
      = [LABEL_IN_REVIEW] ∧
    ([pyStr "draft", LABEL_IN_PROGRESS, LABEL_IN_REVIEW].filter fun s =>
        decide (s ∈ move_to_draft [LABEL_IN_REVIEW, LABEL_IN_PROGRESS, pyStr "extra"]
          [pyStr "draft", LABEL_IN_PROGRESS, LABEL_IN_REVIEW] (pyStr "draft")))
      = [pyStr "draft"] :=
  status_transition_single_status [LABEL_IN_REVIEW, LABEL_IN_PROGRESS, pyStr "extra"]
    (by decide) [pyStr "draft", LABEL_IN_PROGRESS, LABEL_IN_REVIEW] (pyStr "draft")
    (by decide) (by decide)

/-- C3 counterexample: a pull whose head branch is exactly the bare namespace
    prefix has a managed head branch, yet get_all returns no revision for it. -/
theorem get_all_managed_branch_counterexample :
    is_verba_branch (Pull.mk (pyStr "content-") (pyStr "t") (pyStr "b") []).head_ref
      = true ∧
    get_all [Pull.mk (pyStr "content-") (pyStr "t") (pyStr "b") []] = [] := by
  decide

/-- C3 amended: get_all excludes every pull whose head branch is not a managed
    branch and returns exactly one revision, in order, per pull whose head
    branch is managed with a non-empty extracted id; a pull whose head is the
    bare namespace prefix is also excluded. -/
theorem get_all_one_revision_per_managed_pull (pulls : List Pull) :
    get_all pulls =
      (pulls.filter fun pull =>
          is_verba_branch pull.head_ref && decide (pull.head_ref ≠ BRANCH_NAMESPACE)).map
        fun pull =>
          { id := pull.head_ref.drop BRANCH_NAMESPACE.length, pull := pull } := by
  induction pulls with
  | nil => rfl
  | cons p ps ih =>
    simp only [get_all] at ih ⊢
    simp only [List.filterMap_cons, List.filter_cons]
    by_cases hv : is_verba_branch p.head_ref = true
    · have happ := isPrefixOf_append_eq.mp hv
      have hrid : get_revision_id p.head_ref
          = some (p.head_ref.drop BRANCH_NAMESPACE.length) := by
        rw [get_revision_id, if_pos hv]
      by_cases hz : p.head_ref.drop BRANCH_NAMESPACE.length = []
      · have hbare : p.head_ref = BRANCH_NAMESPACE := by
          rw [← happ, hz, List.append_nil]
        have hcond : (is_verba_branch p.head_ref
            && decide (p.head_ref ≠ BRANCH_NAMESPACE)) = false := by
          simp [hbare]
        simp only [hrid, hz, hcond, Bool.false_eq_true, if_false, if_pos rfl]
        exact ih
      · have hnb : p.head_ref ≠ BRANCH_NAMESPACE := by
          intro he
          exact hz (by rw [he, List.drop_length])
        have hcond : (is_verba_branch p.head_ref
            && decide (p.head_ref ≠ BRANCH_NAMESPACE)) = true := by
          simp [hv, hnb]
        simp only [hrid, hcond, if_true, if_neg hz]
        rw [ih, List.map_cons]
    · have hridn : get_revision_id p.head_ref = none := by
        rw [get_revision_id, if_neg hv]
      have hcond : (is_verba_branch p.head_ref
          && decide (p.head_ref ≠ BRANCH_NAMESPACE)) = false := by
        simp only [Bool.not_eq_true] at hv
        simp [hv]
      simp only [hridn, hcond, Bool.false_eq_true, if_false]
      exact ih

/-- C4 counterexample: for the empty revision id, a pull whose head branch is
    exactly the branch name encoding that id (the bare namespace prefix, a
    managed branch) exists, yet get_by_id raises the not-found condition. -/
theorem get_by_id_empty_id_counterexample :
    (Pull.mk (pyStr "content-") (pyStr "t") (pyStr "b") []).head_ref
        = get_verba_branch_name [] ∧
    is_verba_branch (get_verba_branch_name []) = true ∧
    get_by_id [Pull.mk (pyStr "content-") (pyStr "t") (pyStr "b") []] []
        = Except.error (pyStr "Revision \x27\x27 not found") := by
  decide

/-- C4 amended: for every non-empty revision id, get_by_id raises the not-found
    condition exactly when no pull request head branch encodes that id, and
    otherwise returns a revision carrying that id. -/
theorem get_by_id_not_found_spec (pulls : List Pull) (revision_id : PyStr)
    (hne : revision_id ≠ []) :
    (get_by_id pulls revision_id
        = Except.error (pyStr "Revision \x27" ++ revision_id ++ pyStr "\x27 not found")
      ↔ ¬ ∃ pull ∈ pulls, pull.head_ref = get_verba_branch_name revision_id) ∧
    ((∃ r, get_by_id pulls revision_id = Except.ok r ∧ r.id = revision_id)
      ↔ ∃ pull ∈ pulls, pull.head_ref = get_verba_branch_name revision_id) := by
  have hbridge : (∃ r ∈ get_all pulls, r.id = revision_id)
      ↔ ∃ pull ∈ pulls, pull.head_ref = get_verba_branch_name revision_id := by
    constructor
    · rintro ⟨r, hr, hid⟩
      obtain ⟨p, hp, hrid, -, hpl⟩ := mem_get_all.mp hr
      refine ⟨p, hp, ?_⟩
      rw [get_verba_branch_name, ← hid]
      exact get_revision_id_eq_some.mp hrid
    · rintro ⟨p, hp, hhead⟩
      exact ⟨Revision.mk revision_id p,
        mem_get_all.mpr ⟨p, hp, get_revision_id_eq_some.mpr hhead, hne, rfl⟩, rfl⟩
  cases hfind : (get_all pulls).find? (fun revision => revision.id == revision_id) with
  | none =>
    have hnone := List.find?_eq_none.mp hfind
    have hnoex : ¬ ∃ r ∈ get_all pulls, r.id = revision_id := by
      rintro ⟨r, hr, hid⟩
      exact hnone r hr (by simpa using hid)
    constructor
    · constructor
      · intro _
        exact fun hex => hnoex (hbridge.mpr hex)
      · intro _
        simp only [get_by_id, hfind]
    · constructor
      · rintro ⟨r, hok, -⟩
        simp only [get_by_id, hfind] at hok
        simp at hok
      · intro hex
        exact absurd (hbridge.mpr hex) hnoex
  | some r =>
    have hmem := List.mem_of_find?_eq_some hfind
    have hid : r.id = revision_id := by simpa using List.find?_some hfind
    have hex : ∃ pull ∈ pulls, pull.head_ref = get_verba_branch_name revision_id :=
      hbridge.mp ⟨r, hmem, hid⟩
    constructor
    · constructor
      · intro herr
        simp only [get_by_id, hfind] at herr
        simp at herr
      · intro hnex
        exact absurd hex hnex
    · constructor
      · intro _
        exact hex
      · intro _
        exact ⟨r, by simp only [get_by_id, hfind], hid⟩

/-- Witness for C4 amended at a concrete pull list and a concrete id. -/
theorem get_by_id_not_found_spec_witness :
    ∃ r, get_by_id [samplePull] (pyStr "x") = Except.ok r ∧ r.id = pyStr "x" :=
  ((get_by_id_not_found_spec [samplePull] (pyStr "x") (by decide)).2).mpr
    ⟨samplePull, by decide, by decide⟩

/-- C10: get_file_by_path compares paths case-insensitively: it returns a file
    whose relative path matches the requested path up to letter case whenever
    one of the content files matches, and raises the file-not-found condition
    exactly when no content file matches up to case. -/
theorem get_file_by_path_case_insensitive (revision_id : PyStr)
    (gitfiles : List GitFile) (path : PyStr) :
    ((∃ f, get_file_by_path revision_id gitfiles path = Except.ok f ∧
        f ∈ get_files revision_id gitfiles ∧ pyLower f.path = pyLower path)
      ↔ ∃ f ∈ get_files revision_id gitfiles, pyLower f.path = pyLower path) ∧
    (get_file_by_path revision_id gitfiles path
        = Except.error (pyStr "File \x27" ++ path ++ pyStr "\x27 not found")
      ↔ ¬ ∃ f ∈ get_files revision_id gitfiles, pyLower f.path = pyLower path) := by
  cases hfind : (get_files revision_id gitfiles).find?
      (fun rev_file => pyLower rev_file.path == pyLower path) with
  | none =>
    have hnone := List.find?_eq_none.mp hfind
    have hnoex : ¬ ∃ f ∈ get_files revision_id gitfiles,
        pyLower f.path = pyLower path := by
      rintro ⟨f, hf, hl⟩
      exact hnone f hf (by simpa using hl)
    constructor
    · constructor
      · rintro ⟨f, hok, -, -⟩
        simp only [get_file_by_path, hfind] at hok
        simp at hok
      · intro hex
        exact absurd hex hnoex
    · constructor
      · intro _
        exact hnoex
      · intro _
        simp only [get_file_by_path, hfind]
  | some f =>
    have hmem := List.mem_of_find?_eq_some hfind
    have hl : pyLower f.path = pyLower path := by simpa using List.find?_some hfind
    constructor
    · constructor
      · intro _
        exact ⟨f, hmem, hl⟩
      · intro _
        exact ⟨f, by simp only [get_file_by_path, hfind], hmem, hl⟩
    · constructor
      · intro herr
        simp only [get_file_by_path, hfind] at herr
        simp at herr
      · intro hnex
        exact absurd ⟨f, hmem, hl⟩ hnex

/-- C1: evaluation of create at the input of the repository test suite: it
    issues exactly one branch-create, one file-create and one
    pull-request-create, in that order, but the resulting revision carries the
    in-progress label rather than the draft status the claim requires, so its
    statuses cannot equal the singleton draft list for any vocabulary; nothing
    in create records a creator or an assignee. -/
theorem create_trace_and_initial_label :
    (create (pyStr "test-title") (pyStr "a1b2c3d4e5") (pyStr "2016.01.01_00.00")).1
      = [ApiCall.branchCreate (pyStr "refs/heads/content-test-title-a1b2c3d4e5")
           BASE_BRANCH,
         ApiCall.fileCreate
           (pyStr "/content-revision-logs/2016.01.01_00.00_content-test-title-a1b2c3d4e5")
           (pyStr "content-test-title-a1b2c3d4e5"),
         ApiCall.pullCreate (pyStr "content-test-title-a1b2c3d4e5") BASE_BRANCH,
         ApiCall.setLabels [LABEL_IN_PROGRESS]] ∧
    (create (pyStr "test-title") (pyStr "a1b2c3d4e5")
        (pyStr "2016.01.01_00.00")).2.pull.labels = [LABEL_IN_PROGRESS] ∧
    ∀ vocab : List PyStr,
      statuses
        (create (pyStr "test-title") (pyStr "a1b2c3d4e5")
          (pyStr "2016.01.01_00.00")).2.pull.labels vocab ≠ [pyStr "draft"] := by
  refine ⟨by decide, by decide, ?_⟩
  intro vocab
  rw [(by decide :
    (create (pyStr "test-title") (pyStr "a1b2c3d4e5")
      (pyStr "2016.01.01_00.00")).2.pull.labels = [LABEL_IN_PROGRESS])]
  intro hcontra
  have hd : pyStr "draft" ∈ statuses [LABEL_IN_PROGRESS] vocab := by
    rw [hcontra]
    exact List.mem_singleton.mpr rfl
  rw [statuses] at hd
  exact (by decide : pyStr "draft" ∉ [LABEL_IN_PROGRESS]) (List.mem_filter.mp hd).1

/-- C5: evaluation of the generated revision id at the input of the repository
    test suite: the round-trip through the branch name yields a non-empty id,
    but the suffix of the id after the final dash is the random string, not the
    creator, which never enters the id at all. -/
theorem new_revision_id_suffix_is_random :
    new_revision_id (pyStr "test title") (pyStr "a1b2c3d4e5")
      = pyStr "test-title-a1b2c3d4e5" ∧
    get_revision_id (get_verba_branch_name
        (new_revision_id (pyStr "test title") (pyStr "a1b2c3d4e5")))
      = some (pyStr "test-title-a1b2c3d4e5") ∧
    pyStr "test-title-a1b2c3d4e5" ≠ [] ∧
    (pySplit '-' (new_revision_id (pyStr "test title") (pyStr "a1b2c3d4e5"))).getLastD []
      = pyStr "a1b2c3d4e5" ∧
    pyStr "a1b2c3d4e5" ≠ pyStr "test-owner" := by
  decide

end Verba
